import Mathlib

/-! Verification of the layout-aware lowering core in
`lib/Conversion/TritonGPUToLLVM/TritonGPUToLLVM.cpp`.

The C++ helpers are shallowly embedded as Lean functions over `Nat` and
`List Nat`.  All quantities involved (shapes, layout parameters, indices,
bit widths) are small non-negative machine integers (`unsigned`,
`int64_t`, `size_t`) on which the source performs no overflowing
arithmetic, so plain `Nat` arithmetic is a faithful model.  Emitted-IR
computations (`LLVM::URemOp`, `LLVM::UDivOp`, `LLVM::AddOp`,
`LLVM::MulOp` on index-typed constants) are modelled by the
corresponding `Nat` operations on the concrete values they denote. -/

namespace TritonToLLVM

/-- The repository's `ceil` helper (`triton/Analysis/Utility.h`, included by
the lowering file but declared outside `src/`): ceiling division
`ceil(m, n) = (m + n - 1) / n`, written `ceil(a/b)` in the spec. -/
def ceilDiv (m n : Nat) : Nat := (m + n - 1) / n

/-- Parameters of a Blocked layout (`BlockedEncodingAttr`): per-dimension
`sizePerThread`, `threadsPerWarp`, `warpsPerCTA` and the dimension
visitation `order` (spec: `sizePerThread`, `lanesPerSubgroup`,
`subgroupsPerGroup`). -/
structure BlockedEncodingAttr where
  sizePerThread : List Nat
  threadsPerWarp : List Nat
  warpsPerCTA : List Nat
  order : List Nat
deriving DecidableEq, Repr

/-- Loop body of `getMultiDimIndex` (lines 242-260): `acc_mul` starts as the
product of the trailing dimensions, each iteration emits
`linear_remain / acc_mul` and continues with `linear_remain % acc_mul`,
dividing `acc_mul` by the next dimension (`shape[i+1]`); on the last
iteration the source skips the update (`i != rank - 1`), which the
`List.headD 1` default mirrors (the value is never used there). -/
def getMultiDimIndexAux : Nat → Nat → List Nat → List Nat
  | _, _, [] => []
  | accMul, rem, _ :: rest =>
    rem / accMul :: getMultiDimIndexAux (accMul / rest.headD 1) (rem % accMul) rest

/-- Compile-time delinearization `getMultiDimIndex<T>` (lines 242-260):
row-major divisor/remainder decomposition of a linear index. -/
def getMultiDimIndex (linearIndex : Nat) (shape : List Nat) : List Nat :=
  getMultiDimIndexAux (shape.drop 1).prod linearIndex shape

/-- Loop body of `getLinearIndex` (lines 262-279): accumulates
`multidim_index[i] * acc_mul`, updating `acc_mul` exactly as in
`getMultiDimIndex`. -/
def getLinearIndexAux : Nat → List Nat → List Nat → Nat
  | _, [], _ => 0
  | accMul, m :: ms, shape =>
    m * accMul + getLinearIndexAux (accMul / (shape.drop 1).headD 1) ms (shape.drop 1)

/-- Compile-time linearization `getLinearIndex<T>` (lines 262-279). -/
def getLinearIndex (multiDimIndex : List Nat) (shape : List Nat) : Nat :=
  getLinearIndexAux (shape.drop 1).prod multiDimIndex shape

/-- Emitted-IR delinearization (lines 325-346): for `rank >= 2` the loop
walks the reversed tail of the shape, emitting a `urem`/`udiv` pair per
dimension (`multiDim[rank-1-i] = remained % dim; remained /= dim`) and
stores the final quotient at position 0.  The source's `rank == 1`
special case (`multiDim[0] = linear`) coincides with the general branch,
whose fold over the empty tail yields `[linear]`. -/
def delinearize (linear : Nat) (shape : List Nat) : List Nat :=
  match shape with
  | [] => []
  | _ :: rest =>
    let p := rest.reverse.foldl (fun q d => (q.2 % d :: q.1, q.2 / d)) (([] : List Nat), linear)
    p.2 :: p.1

/-- Order-permuted delinearization (lines 307-323): permute the shape by
`order` (`reordered[i] = shape[order[i]]`), delinearize, then scatter the
components back (`multiDim[order[i]] = reorderedMultiDim[i]`). -/
def delinearizeOrder (linear : Nat) (shape order : List Nat) : List Nat :=
  let reordered := order.map (fun o => shape.getD o 0)
  let reorderedMultiDim := delinearize linear reordered
  (List.range shape.length).foldl
    (fun acc i => acc.set (order.getD i 0) (reorderedMultiDim.getD i 0))
    (List.replicate shape.length 0)

/-- Emitted-IR linearization (lines 348-365): Horner accumulation
`linear = linear * dimSize + multiDim[i]` over the tails of `multiDim`
and `shape`, starting from `multiDim.front()`; rank 0 yields the
constant 0. -/
def linearize (multiDim shape : List Nat) : Nat :=
  match multiDim with
  | [] => 0
  | m :: ms => (ms.zip (shape.drop 1)).foldl (fun lin z => lin * z.2 + z.1) m

/-- The remainder chain produced by the `delinearize` loop on the reversed
trailing dimensions (innermost dimension first). -/
def remChain (v : Nat) : List Nat → List Nat
  | [] => []
  | d :: ds => remChain (v / d) ds ++ [v % d]

theorem remChain_length (v : Nat) (ds : List Nat) : (remChain v ds).length = ds.length := by
  induction ds generalizing v with
  | nil => rfl
  | cons d ds ih => simp [remChain, ih]

theorem delin_foldl (ds : List Nat) (L : List Nat) (v : Nat) :
    ds.foldl (fun q d => (q.2 % d :: q.1, q.2 / d)) (L, v) =
      (remChain v ds ++ L, v / ds.prod) := by
  induction ds generalizing L v with
  | nil => simp [remChain]
  | cons d ds ih =>
    simp only [List.foldl_cons, ih, remChain, List.prod_cons, List.append_assoc,
      List.singleton_append, Nat.div_div_eq_div_mul]

theorem delinearize_cons (s : Nat) (rest : List Nat) (i : Nat) :
    delinearize i (s :: rest) = (i / rest.prod) :: remChain i rest.reverse := by
  simp only [delinearize, delin_foldl, List.prod_reverse, List.append_nil]

theorem getMultiDim_getLinear_aux (shape : List Nat) (i : Nat) (hi : i < shape.prod) :
    getLinearIndexAux (shape.drop 1).prod
      (getMultiDimIndexAux (shape.drop 1).prod i shape) shape = i := by
  induction shape generalizing i with
  | nil =>
    simp only [List.prod_nil] at hi
    simp only [getMultiDimIndexAux, getLinearIndexAux]
    omega
  | cons s rest ih =>
    simp only [List.drop_succ_cons, List.drop_zero] at *
    rw [getMultiDimIndexAux]
    rw [getLinearIndexAux]
    simp only [List.drop_succ_cons, List.drop_zero]
    cases rest with
    | nil =>
      simp [getLinearIndexAux]
    | cons r rs =>
      have hp : 0 < (r :: rs).prod := by
        rcases Nat.eq_zero_or_pos ((r :: rs).prod) with h0 | h0
        · rw [List.prod_cons, h0, Nat.mul_zero] at hi; omega
        · exact h0
      have hr : 0 < r := by
        rcases Nat.eq_zero_or_pos r with h0 | h0
        · rw [List.prod_cons, h0, Nat.zero_mul] at hp; omega
        · exact h0
      have hh : ((r :: rs).headD 1) = r := rfl
      have hdiv : (r :: rs).prod / r = rs.prod := by
        rw [List.prod_cons, Nat.mul_div_cancel_left _ hr]
      rw [hh, hdiv]
      have hlt : i % (r :: rs).prod < (r :: rs).prod := Nat.mod_lt _ hp
      have := ih (i % (r :: rs).prod) hlt
      simp only [List.drop_succ_cons, List.drop_zero] at this
      cases rs with
      | nil =>
        simp only [List.prod_nil] at this ⊢
        rw [this]
        rw [Nat.mul_comm]
        exact Nat.div_add_mod i (r :: []).prod
      | cons r2 rs2 =>
        have hh2 : ((r2 :: rs2).headD 1) = r2 := rfl
        rw [this]
        rw [Nat.mul_comm]
        exact Nat.div_add_mod i (r :: r2 :: rs2).prod

theorem delin_lin_aux (s : Nat) (rest : List Nat) :
    ∀ i : Nat, i < s * rest.prod →
      linearize (delinearize i (s :: rest)) (s :: rest) = i := by
  induction rest using List.reverseRecOn with
  | nil =>
    intro i _
    simp [delinearize, linearize]
  | append_singleton ds d ih =>
    intro i hi
    have hd : 0 < d := by
      rcases Nat.eq_zero_or_pos d with h0 | h0
      · simp [h0] at hi
      · exact h0
    have hql : i / d < s * ds.prod := by
      rw [Nat.div_lt_iff_lt_mul hd]
      calc i < s * (ds ++ [d]).prod := hi
        _ = s * ds.prod * d := by simp [List.prod_append, Nat.mul_assoc]
    have hzlen : (remChain (i / d) ds.reverse).length = ds.length := by
      simp [remChain_length]
    rw [delinearize_cons]
    have hrev : (ds ++ [d]).reverse = d :: ds.reverse := by simp
    rw [hrev]
    have hrem : remChain i (d :: ds.reverse) = remChain (i / d) ds.reverse ++ [i % d] := rfl
    rw [hrem]
    have hprod : (ds ++ [d]).prod = d * ds.prod := by
      simp [List.prod_append, Nat.mul_comm]
    rw [hprod]
    have hdd : i / (d * ds.prod) = i / d / ds.prod := (Nat.div_div_eq_div_mul i d ds.prod).symm
    rw [hdd]
    -- unfold linearize on both the amended list and the IH instance
    have ihe := ih (i / d) hql
    rw [delinearize_cons] at ihe
    simp only [linearize] at ihe ⊢
    simp only [List.drop_one, List.tail_cons] at ihe ⊢
    rw [List.zip_append hzlen]
    rw [List.foldl_append]
    rw [ihe]
    simp only [List.zip_cons_cons, List.zip_nil_left, List.zip_nil_right,
      List.foldl_cons, List.foldl_nil]
    rw [Nat.mul_comm (i / d) d]
    exact Nat.div_add_mod i d

/-- C2: for every non-empty shape and every in-range linear index, the
compile-time pair `getMultiDimIndex`/`getLinearIndex` and the emitted-IR
pair `delinearize`/`linearize` both satisfy the round trip
`linearize (delinearize i shape) shape = i`. -/
theorem claim_C2_index_roundtrip (shape : List Nat) (i : Nat)
    (hne : shape ≠ []) (hi : i < shape.prod) :
    getLinearIndex (getMultiDimIndex i shape) shape = i ∧
    linearize (delinearize i shape) shape = i := by
  constructor
  · exact getMultiDim_getLinear_aux shape i hi
  · cases shape with
    | nil => exact absurd rfl hne
    | cons s rest =>
      apply delin_lin_aux s rest i
      simpa [List.prod_cons] using hi

/-- Witness for C2 at `shape = [2, 3, 4]`, `i = 17`. -/
theorem claim_C2_index_roundtrip_witness :
    getLinearIndex (getMultiDimIndex 17 [2, 3, 4]) [2, 3, 4] = 17 ∧
    linearize (delinearize 17 [2, 3, 4]) [2, 3, 4] = 17 :=
  claim_C2_index_roundtrip [2, 3, 4] 17 (by decide) (by decide)

/-- Per-lane base index `emitBaseIndexForBlockedLayout` (lines 367-418):
the runtime thread id is split by the hardwired `warpSize = 32`
(`laneId = threadId % 32`, `warpId = threadId / 32`), both are
delinearized under the layout's `order`, each component is wrapped
modulo the number of warps/threads actually needed for `shape[k]`
(`maxWarps`, `maxThreads`), and the base is
`sizePerThread[k] * (threadId_k + warpId_k * threadsPerWarp[k])`.
The emitted IR is pure index arithmetic, modelled on the value level. -/
def emitBaseIndexForBlockedLayout (layout : BlockedEncodingAttr) (shape : List Nat)
    (threadId : Nat) : List Nat :=
  let warpSize := 32
  let laneId := threadId % warpSize
  let warpId := threadId / warpSize
  let sizePerThread := layout.sizePerThread
  let threadsPerWarp := layout.threadsPerWarp
  let warpsPerCTA := layout.warpsPerCTA
  let multiDimWarpId := delinearizeOrder warpId warpsPerCTA layout.order
  let multiDimThreadId := delinearizeOrder laneId threadsPerWarp layout.order
  (List.range shape.length).map (fun k =>
    let maxWarps := ceilDiv (shape.getD k 0) (sizePerThread.getD k 0 * threadsPerWarp.getD k 0)
    let maxThreads := ceilDiv (shape.getD k 0) (sizePerThread.getD k 0)
    let warpIdK := multiDimWarpId.getD k 0 % maxWarps
    let threadIdK := multiDimThreadId.getD k 0 % maxThreads
    sizePerThread.getD k 0 * (threadIdK + warpIdK * threadsPerWarp.getD k 0))

/-- Full per-lane index enumeration `emitIndicesForBlockedLayout`
(lines 482-555): per-dimension offset tables are filled by the
`blockOffset`/`warpOffset`/`threadOffset`/`elemOffset` loop nest, then for
each of the lane's `elemsPerThread` elements the nano-tile id and
intra-tile id are delinearized (the source delinearizes the nano-tile id
over `threadsPerDim[k] = ceil(shape[k], sizePerThread[k])`) and combined
into a lookup position in the offset table.  An index past the end of an
offset table (impossible to observe in well-behaved configurations,
undefined behaviour in the C++) is modelled by `List.getD`'s default 0. -/
def emitIndicesForBlockedLayout (layout : BlockedEncodingAttr) (shape : List Nat)
    (threadId : Nat) : List (List Nat) :=
  let sizePerThread := layout.sizePerThread
  let threadsPerWarp := layout.threadsPerWarp
  let warpsPerCTA := layout.warpsPerCTA
  let rank := shape.length
  let shapePerCTA := (List.range rank).map (fun k =>
    sizePerThread.getD k 0 * threadsPerWarp.getD k 0 * warpsPerCTA.getD k 0)
  let multiDimBase := emitBaseIndexForBlockedLayout layout shape threadId
  let multiDimElemsPerThread := (List.range rank).map (fun k =>
    ceilDiv (shape.getD k 0) (shapePerCTA.getD k 0) * sizePerThread.getD k 0)
  let elemsPerThread := multiDimElemsPerThread.prod
  let offset := (List.range rank).map (fun k =>
    (List.range (ceilDiv (shape.getD k 0) (shapePerCTA.getD k 0))).flatMap (fun blockOffset =>
      (List.range (warpsPerCTA.getD k 0)).flatMap (fun warpOffset =>
        (List.range (threadsPerWarp.getD k 0)).flatMap (fun threadOffset =>
          (List.range (sizePerThread.getD k 0)).map (fun elemOffset =>
            blockOffset * sizePerThread.getD k 0 * threadsPerWarp.getD k 0 *
                warpsPerCTA.getD k 0 +
              warpOffset * sizePerThread.getD k 0 * threadsPerWarp.getD k 0 +
              threadOffset * sizePerThread.getD k 0 + elemOffset)))))
  let accumSizePerThread := sizePerThread.prod
  let threadsPerDim := (List.range rank).map (fun k =>
    ceilDiv (shape.getD k 0) (sizePerThread.getD k 0))
  (List.range elemsPerThread).map (fun n =>
    let linearNanoTileId := n / accumSizePerThread
    let linearElemsInNanoTileId := n % accumSizePerThread
    let multiDimNanoTileId := getMultiDimIndex linearNanoTileId threadsPerDim
    let multiElemsInNanoTileId := getMultiDimIndex linearElemsInNanoTileId sizePerThread
    (List.range rank).map (fun k =>
      let reorderedMultiDimId :=
        multiDimNanoTileId.getD k 0 *
            (sizePerThread.getD k 0 * threadsPerWarp.getD k 0 * warpsPerCTA.getD k 0) +
          multiElemsInNanoTileId.getD k 0
      multiDimBase.getD k 0 + (offset.getD k []).getD reorderedMultiDimId 0))

theorem getD_map_range {α : Type} (f : Nat → α) (d : α) {n k : Nat} (h : k < n) :
    ((List.range n).map f).getD k d = f k := by
  rw [List.getD_eq_getElem?_getD, List.getElem?_map, List.getElem?_range h]
  rfl

/-- The spec's formula for the per-lane base index of a Blocked layout,
stated independently of the source loop for comparison:
`base[k] = sizePerThread[k] * (laneCoord[k] + groupCoord[k] * threadsPerWarp[k])`
with `laneCoord`/`groupCoord` delinearized from
`laneId = threadId mod 32` / `warpId = threadId div 32` under the
layout's order, `groupCoord[k]` reduced modulo
`ceil(shape[k] / (sizePerThread[k]*threadsPerWarp[k]))` and `laneCoord[k]`
modulo `ceil(shape[k] / sizePerThread[k])`. -/
def blockedBaseIndexSpec (layout : BlockedEncodingAttr) (shape : List Nat)
    (threadId k : Nat) : Nat :=
  let groupWidth := 32
  let laneCoord := delinearizeOrder (threadId % groupWidth) layout.threadsPerWarp layout.order
  let groupCoord := delinearizeOrder (threadId / groupWidth) layout.warpsPerCTA layout.order
  let maxGroups := ceilDiv (shape.getD k 0)
    (layout.sizePerThread.getD k 0 * layout.threadsPerWarp.getD k 0)
  let maxLanes := ceilDiv (shape.getD k 0) (layout.sizePerThread.getD k 0)
  layout.sizePerThread.getD k 0 *
    (laneCoord.getD k 0 % maxLanes +
      groupCoord.getD k 0 % maxGroups * layout.threadsPerWarp.getD k 0)

/-- C3: for every Blocked layout, shape, thread id and in-range dimension
`k`, the base index emitted by `emitBaseIndexForBlockedLayout` equals the
spec's formula `sizePerThread[k] * (laneCoord[k] + groupCoord[k] *
threadsPerWarp[k])` with the wrap-around modular reductions applied to
both coordinates. -/
theorem claim_C3_base_index (layout : BlockedEncodingAttr) (shape : List Nat)
    (threadId k : Nat) (hk : k < shape.length) :
    (emitBaseIndexForBlockedLayout layout shape threadId).getD k 0 =
      blockedBaseIndexSpec layout shape threadId k := by
  unfold emitBaseIndexForBlockedLayout blockedBaseIndexSpec
  rw [getD_map_range _ _ hk]

/-- Witness for C3 at the layout `sizePerThread=[4]`, `threadsPerWarp=[32]`,
`warpsPerCTA=[1]`, `order=[0]`, shape `[128]`, thread 7, dimension 0. -/
theorem claim_C3_base_index_witness :
    (emitBaseIndexForBlockedLayout ⟨[4], [32], [1], [0]⟩ [128] 7).getD 0 0 =
      blockedBaseIndexSpec ⟨[4], [32], [1], [0]⟩ [128] 7 0 :=
  claim_C3_base_index ⟨[4], [32], [1], [0]⟩ [128] 7 0 (by decide)

/-- C1: the partition property fails on the code.  For the Blocked layout
`sizePerThread=[1,2]`, `threadsPerWarp=[4,8]`, `warpsPerCTA=[1,1]`,
`order=[1,0]` and shape `[8,16]` — each `shape[k]` divisible by the
tiling period (`[4,16]`) — lane 0 enumerates the multi-dimensional index
`[0,0]` at element slots 0 and 2 alike (the nano-tile id 1 is
delinearized over `threadsPerDim = [8,8]` instead of the per-dimension
tile counts `[2,1]`, sending the dimension-1 offset lookup past the end
of the 16-entry offset table), so the lanes' index sets neither stay
disjoint nor cover the 128-element index space. -/
theorem claim_C1_enumeration_duplicate :
    (emitIndicesForBlockedLayout ⟨[1, 2], [4, 8], [1, 1], [1, 0]⟩ [8, 16] 0).length = 4 ∧
    (emitIndicesForBlockedLayout ⟨[1, 2], [4, 8], [1, 1], [1, 0]⟩ [8, 16] 0).getD 0 [] =
      (emitIndicesForBlockedLayout ⟨[1, 2], [4, 8], [1, 1], [1, 0]⟩ [8, 16] 0).getD 2 [] := by
  decide

/-- Per-lane element count of a Blocked layout,
`BlockedEncodingAttr::getElemsPerThread` (declared in the TritonGPU
dialect, outside `src/`).  Modelled from the spec: the missing dialect
method computes `elemsPerThread = prod_k ceil(shape[k]/shapePerGroup[k])
* sizePerThread[k]` (spec section 4.1), the very formula the lowering
file itself recomputes at lines 501-507. -/
def BlockedEncodingAttr.getElemsPerThread (layout : BlockedEncodingAttr)
    (shape : List Nat) : Nat :=
  ((List.range shape.length).map (fun k =>
    ceilDiv (shape.getD k 0)
        (layout.sizePerThread.getD k 0 * layout.threadsPerWarp.getD k 0 *
          layout.warpsPerCTA.getD k 0) *
      layout.sizePerThread.getD k 0)).prod

/-- `LoadStoreConversionBase::getAlignment` (lines 693-700): the minimum
of the pointer's divisibility and contiguity facts along the
fastest-contiguity dimension `order[0]`; the two facts are produced by
the external AxisInfo analysis and passed in here already projected to
`order[0]`. -/
def getAlignment (maxMultiple maxContig : Nat) : Nat := min maxMultiple maxContig

/-- `LoadStoreConversionBase::getVectorizeSize` (lines 702-719): clamp the
alignment by `sizePerThread[order[0]]` and by the shape extent along
`order[0]`. -/
def getVectorizeSize (maxMultiple maxContig : Nat) (layout : BlockedEncodingAttr)
    (shape : List Nat) : Nat :=
  let o0 := layout.order.getD 0 0
  let align := getAlignment maxMultiple maxContig
  let contigPerThread := layout.sizePerThread.getD o0 0
  let vec := min align contigPerThread
  min (shape.getD o0 0) vec

theorem pow_two_min (a c : Nat) : min (2 ^ a) (2 ^ c) = 2 ^ min a c := by
  rcases Nat.le_total a c with h | h
  · rw [Nat.min_eq_left (Nat.pow_le_pow_right (by norm_num) h), Nat.min_eq_left h]
  · rw [Nat.min_eq_right (Nat.pow_le_pow_right (by norm_num) h), Nat.min_eq_right h]

theorem pow_two_dvd_of_le {x y : Nat} (hx : x ≤ y) : (2 ^ x : Nat) ∣ 2 ^ y :=
  Nat.pow_dvd_pow 2 hx

/-- C5: the chosen vectorization width equals
`min(alignment, sizePerThread[order[0]], shapeExtent[order[0]])`, never
exceeds that bound, and — for the power-of-two divisibility/contiguity
facts the AxisInfo analysis produces and the power-of-two layout sizes
and tensor shapes Triton admits — it evenly divides the per-lane element
count `elemsPerThread`. -/
theorem claim_C5_vectorize_size (maxMultiple maxContig : Nat)
    (layout : BlockedEncodingAttr) (shape : List Nat)
    (em ec es esh : Nat)
    (hm : maxMultiple = 2 ^ em) (hc : maxContig = 2 ^ ec)
    (hs : layout.sizePerThread.getD (layout.order.getD 0 0) 0 = 2 ^ es)
    (hsh : shape.getD (layout.order.getD 0 0) 0 = 2 ^ esh)
    (ho : layout.order.getD 0 0 < shape.length) :
    getVectorizeSize maxMultiple maxContig layout shape =
        min (getAlignment maxMultiple maxContig)
          (min (layout.sizePerThread.getD (layout.order.getD 0 0) 0)
            (shape.getD (layout.order.getD 0 0) 0)) ∧
    getVectorizeSize maxMultiple maxContig layout shape ≤
        min (getAlignment maxMultiple maxContig)
          (min (layout.sizePerThread.getD (layout.order.getD 0 0) 0)
            (shape.getD (layout.order.getD 0 0) 0)) ∧
    getVectorizeSize maxMultiple maxContig layout shape ∣
        layout.getElemsPerThread shape := by
  have heq : getVectorizeSize maxMultiple maxContig layout shape =
      min (getAlignment maxMultiple maxContig)
        (min (layout.sizePerThread.getD (layout.order.getD 0 0) 0)
          (shape.getD (layout.order.getD 0 0) 0)) := by
    simp only [getVectorizeSize, getAlignment]
    omega
  refine ⟨heq, le_of_eq heq, ?_⟩
  rw [heq]
  unfold getAlignment
  rw [hm, hc, hs, hsh, pow_two_min, pow_two_min, pow_two_min]
  have hdvd_spt : (2 ^ min (min em ec) (min es esh) : Nat) ∣ 2 ^ es :=
    pow_two_dvd_of_le (by omega)
  refine hdvd_spt.trans ?_
  have hfac : (2 ^ es : Nat) ∣
      ceilDiv (shape.getD (layout.order.getD 0 0) 0)
          (layout.sizePerThread.getD (layout.order.getD 0 0) 0 *
            layout.threadsPerWarp.getD (layout.order.getD 0 0) 0 *
            layout.warpsPerCTA.getD (layout.order.getD 0 0) 0) *
        layout.sizePerThread.getD (layout.order.getD 0 0) 0 := by
    rw [hs]
    exact dvd_mul_left _ _
  refine hfac.trans ?_
  apply List.dvd_prod
  exact List.mem_map.mpr ⟨layout.order.getD 0 0, List.mem_range.mpr ho, rfl⟩

/-- Witness for C5 at `maxMultiple = 16`, `maxContig = 4`,
layout `sizePerThread=[4]`, `threadsPerWarp=[32]`, `warpsPerCTA=[1]`,
`order=[0]`, shape `[128]` (so `vec = 4` divides `elemsPerThread = 4`). -/
theorem claim_C5_vectorize_size_witness :
    getVectorizeSize 16 4 ⟨[4], [32], [1], [0]⟩ [128] =
        min (getAlignment 16 4) (min 4 128) ∧
    getVectorizeSize 16 4 ⟨[4], [32], [1], [0]⟩ [128] ≤
        min (getAlignment 16 4) (min 4 128) ∧
    getVectorizeSize 16 4 ⟨[4], [32], [1], [0]⟩ [128] ∣
        BlockedEncodingAttr.getElemsPerThread ⟨[4], [32], [1], [0]⟩ [128] :=
  claim_C5_vectorize_size 16 4 ⟨[4], [32], [1], [0]⟩ [128] 4 2 2 7
    (by decide) (by decide) (by decide) (by decide) (by decide)

/-- Machine-word width bound for one vectorized group,
`maxWordWidth = std::max(32, valueElemNbits)` (store line 791, load
line 1111). -/
def maxWordWidth (valueElemNbits : Nat) : Nat := max 32 valueElemNbits

/-- Total bit width of one vectorized group,
`totalWidth = valueElemNbits * vec` (store line 792, load line 1112). -/
def totalWidth (valueElemNbits vec : Nat) : Nat := valueElemNbits * vec

/-- Machine-word width `width = std::min(totalWidth, maxWordWidth)`
(store line 793, load line 1113). -/
def width (valueElemNbits vec : Nat) : Nat :=
  min (totalWidth valueElemNbits vec) (maxWordWidth valueElemNbits)

/-- Machine words per group `nWords = std::max(1, totalWidth / width)`
(store line 794, load line 1114). -/
def nWords (valueElemNbits vec : Nat) : Nat :=
  max 1 (totalWidth valueElemNbits vec / width valueElemNbits vec)

theorem nWords_eq_ceilDiv_of_dvd (b v : Nat) (hdvd : width b v ∣ totalWidth b v)
    (hpos : 0 < totalWidth b v) :
    nWords b v = ceilDiv (totalWidth b v) (width b v) := by
  have hw : 0 < width b v := by
    unfold width maxWordWidth
    omega
  rcases hdvd with ⟨q, hq⟩
  have hq1 : 1 ≤ q := by
    rcases Nat.eq_zero_or_pos q with h0 | h0
    · rw [h0, Nat.mul_zero] at hq; omega
    · exact h0
  unfold nWords ceilDiv
  rw [hq]
  rw [Nat.mul_div_cancel_left _ hw]
  have harith : width b v * q + width b v - 1 = width b v * q + (width b v - 1) := by omega
  rw [harith, Nat.mul_add_div hw, Nat.div_eq_of_lt (by omega)]
  omega

/-- C8: for every vectorized group, the machine-word width is
`min(max(32, elementBits), elementBits * vectorWidth)` exactly as the
claim states, and — for the power-of-two element widths (multiples of 8
produced by `dtsize * 8`) and power-of-two vector widths the lowering
works with — the word count equals
`ceil(elementBits * vectorWidth / width)`. -/
theorem claim_C8_word_width (valueElemNbits vec j m : Nat)
    (hb : valueElemNbits = 8 * 2 ^ j) (hv : vec = 2 ^ m) :
    width valueElemNbits vec = min (maxWordWidth valueElemNbits) (totalWidth valueElemNbits vec) ∧
    nWords valueElemNbits vec = ceilDiv (totalWidth valueElemNbits vec) (width valueElemNbits vec) := by
  constructor
  · unfold width
    exact Nat.min_comm _ _
  · have hpos : 0 < totalWidth valueElemNbits vec := by
      unfold totalWidth
      rw [hb, hv]
      positivity
    apply nWords_eq_ceilDiv_of_dvd _ _ _ hpos
    rcases Nat.le_total (totalWidth valueElemNbits vec) (maxWordWidth valueElemNbits) with h | h
    · unfold width
      rw [Nat.min_eq_left h]
    · have hww : width valueElemNbits vec = maxWordWidth valueElemNbits := by
        unfold width
        rw [Nat.min_eq_right h]
      rw [hww]
      rcases Nat.le_total 32 valueElemNbits with h32 | h32
      · have : maxWordWidth valueElemNbits = valueElemNbits := by
          unfold maxWordWidth; omega
        rw [this]
        unfold totalWidth
        exact dvd_mul_right _ _
      · have hmw : maxWordWidth valueElemNbits = 32 := by
          unfold maxWordWidth; omega
        rw [hmw]
        have htw : totalWidth valueElemNbits vec = 2 ^ (3 + j + m) := by
          unfold totalWidth
          rw [hb, hv]
          rw [show (8 : Nat) = 2 ^ 3 by norm_num]
          rw [← Nat.pow_add, ← Nat.pow_add]
        have hge : 32 ≤ totalWidth valueElemNbits vec := by
          unfold maxWordWidth at h
          omega
        rw [htw] at hge ⊢
        have h5 : 5 ≤ 3 + j + m := by
          by_contra hlt
          push_neg at hlt
          have : 2 ^ (3 + j + m) < 2 ^ 5 :=
            Nat.pow_lt_pow_right (by norm_num) (by omega)
          norm_num at this
          omega
        calc (32 : Nat) = 2 ^ 5 := by norm_num
          _ ∣ 2 ^ (3 + j + m) := pow_two_dvd_of_le h5

/-- Witness for C8 at `valueElemNbits = 16`, `vec = 4` (word width 32,
two machine words). -/
theorem claim_C8_word_width_witness :
    width 16 4 = min (maxWordWidth 16) (totalWidth 16 4) ∧
    nWords 16 4 = ceilDiv (totalWidth 16 4) (width 16 4) :=
  claim_C8_word_width 16 4 1 2 (by decide) (by decide)

/-- Predicate operand bound to an emitted PTX instruction: the `i1`
constant 1 created when no mask operand exists, or the mask record's
element at a given index (store lines 839-842, load lines 1129-1132). -/
inductive PredOperand
  | constTrue
  | maskElem (idx : Nat)
deriving DecidableEq, Repr, Inhabited

/-- Operand of an inversely-predicated `mov`: the packed register word
built from the `other` record's elements
(`ptxBuilder.newOperand(v, readConstraint)`), or an immediate splat
constant (`ptxBuilder.newConstantOperand(splatVal)`), load lines
1192-1198. -/
inductive MovOperand
  | reg
  | imm (v : Int)
deriving DecidableEq, Repr, Inhabited

/-- One `mov.u<width>` emitted for a machine word of a load with a
fallback value, predicated on the negation of the group's predicate
(`mov(dstsOpr->listGet(ii), opr).predicateNot(pred, "b")`, load
line 1200). -/
structure MovInstr where
  wordIdx : Nat
  operand : MovOperand
  negatedPred : PredOperand
deriving DecidableEq, Repr, Inhabited

/-- One vectorized `st.global.v<nWords>.b<width>` group emitted by
`StoreOpConversion::matchAndRewrite` (lines 786-867): the predicate, the
index of the pointer element used as address operand, and the word
geometry. -/
structure StoreGroup where
  vecStart : Nat
  wordWidth : Nat
  numWords : Nat
  pred : PredOperand
  addrIdx : Nat
deriving DecidableEq, Repr, Inhabited

/-- One vectorized `ld.global.v<nWords>.b<width>` group emitted by
`LoadOpConversion::matchAndRewrite` (lines 1107-1250), together with the
`mov` instructions emitted for its fallback value (empty when the load
has no `other` operand). -/
structure LoadGroup where
  vecStart : Nat
  wordWidth : Nat
  numWords : Nat
  pred : PredOperand
  addrIdx : Nat
  movs : List MovInstr
deriving DecidableEq, Repr, Inhabited

/-- Store lowering, vectorized-group loop (`for (size_t vecStart = 0;
vecStart < numElems; vecStart += vec)`, lines 787-867): group `g` starts
at `vecStart = g * vec`; its predicate is `maskElems[vecStart]` when a
mask is present and the constant 1 otherwise, its address operand is
`ptrElems[vecStart]`. -/
def storeEmitGroups (numElems vec valueElemNbits : Nat) (hasMask : Bool) :
    List StoreGroup :=
  (List.range (ceilDiv numElems vec)).map (fun g =>
    let vecStart := g * vec
    { vecStart := vecStart
      wordWidth := width valueElemNbits vec
      numWords := nWords valueElemNbits vec
      pred := if hasMask then .maskElem vecStart else .constTrue
      addrIdx := vecStart })

/-- Load lowering, vectorized-group loop (lines 1107-1250): same group
geometry and predicate selection as the store; when the load carries an
`other` operand, one inversely-predicated `mov` per machine word is
emitted, its operand being the immediate `splatVal` when `other` is a
splat integer constant and the packed register word otherwise. -/
def loadEmitGroups (numElems vec valueElemNbits : Nat)
    (hasMask hasOther otherIsSplatConstInt : Bool) (splatVal : Int) :
    List LoadGroup :=
  (List.range (ceilDiv numElems vec)).map (fun g =>
    let vecStart := g * vec
    let pred : PredOperand := if hasMask then .maskElem vecStart else .constTrue
    { vecStart := vecStart
      wordWidth := width valueElemNbits vec
      numWords := nWords valueElemNbits vec
      pred := pred
      addrIdx := vecStart
      movs :=
        if hasOther then
          (List.range (nWords valueElemNbits vec)).map (fun ii =>
            { wordIdx := ii
              operand := if otherIsSplatConstInt then .imm splatVal else .reg
              negatedPred := pred })
        else [] })

/-- C7 counterexample: the claim says the `mov` is skipped (not emitted)
when the fallback is a splat integer constant, but at `numElems = 4`,
`vec = 4`, 32-bit elements, fallback present and splat-constant 7, the
emitted group still contains its (four) `mov` instructions — only their
operand becomes the immediate 7. -/
theorem claim_C7_splat_mov_counterexample :
    ¬ ((loadEmitGroups 4 4 32 false true true 7).flatMap (fun g => g.movs) = []) := by
  decide

/-- C7 (amended): for every load group, no `mov` is emitted when there is
no fallback operand; when a fallback is present, one `mov` per machine
word is emitted, predicated on the negation of the group's predicate,
and its operand is the immediate splat value when the fallback is a
splat integer constant and the packed register word otherwise (the
`mov` itself is emitted in both cases). -/
theorem claim_C7_fallback_mov (numElems vec valueElemNbits : Nat)
    (hasMask hasOther otherIsSplatConstInt : Bool) (splatVal : Int)
    (g : LoadGroup)
    (hg : g ∈ loadEmitGroups numElems vec valueElemNbits hasMask hasOther
      otherIsSplatConstInt splatVal) :
    (hasOther = false → g.movs = []) ∧
    (hasOther = true →
      g.movs.length = nWords valueElemNbits vec ∧
      ∀ mv ∈ g.movs, mv.negatedPred = g.pred ∧
        mv.operand = (if otherIsSplatConstInt then .imm splatVal else .reg)) := by
  rw [loadEmitGroups, List.mem_map] at hg
  obtain ⟨gi, _, rfl⟩ := hg
  constructor
  · intro h0
    simp [h0]
  · intro h1
    subst h1
    simp only [if_true]
    refine ⟨by simp, ?_⟩
    intro mv hmv
    simp only [List.mem_map] at hmv
    obtain ⟨ii, _, rfl⟩ := hmv
    exact ⟨rfl, rfl⟩

/-- Witness for C7 (amended) at `numElems = 4`, `vec = 2`, 32-bit
elements, mask present, fallback present and not splat-constant. -/
theorem claim_C7_fallback_mov_witness :
    (true = false →
      (⟨2, 32, 2, .maskElem 2, 2,
        [⟨0, .reg, .maskElem 2⟩, ⟨1, .reg, .maskElem 2⟩]⟩ : LoadGroup).movs = []) ∧
    (true = true →
      (⟨2, 32, 2, .maskElem 2, 2,
        [⟨0, .reg, .maskElem 2⟩, ⟨1, .reg, .maskElem 2⟩]⟩ : LoadGroup).movs.length =
          nWords 32 2 ∧
      ∀ mv ∈ (⟨2, 32, 2, .maskElem 2, 2,
        [⟨0, .reg, .maskElem 2⟩, ⟨1, .reg, .maskElem 2⟩]⟩ : LoadGroup).movs,
        mv.negatedPred = (PredOperand.maskElem 2) ∧
        mv.operand = (if false then .imm 0 else .reg)) :=
  claim_C7_fallback_mov 4 2 32 true true false 0
    ⟨2, 32, 2, .maskElem 2, 2, [⟨0, .reg, .maskElem 2⟩, ⟨1, .reg, .maskElem 2⟩]⟩
    (by decide)

/-- C10: for every vectorized store and load group, the bound predicate
is the boolean constant 1 when no mask operand is present (the access is
unconditional) and exactly the mask record's element at index
`vecStart = g * vec` when a mask is present. -/
theorem claim_C10_predicate_binding (numElems vec valueElemNbits : Nat)
    (hasMask hasOther otherSplat : Bool) (splatVal : Int) (g : Nat)
    (hg : g < ceilDiv numElems vec) :
    ((storeEmitGroups numElems vec valueElemNbits hasMask).getD g default).vecStart
        = g * vec ∧
    ((storeEmitGroups numElems vec valueElemNbits hasMask).getD g default).pred
        = (if hasMask then PredOperand.maskElem (g * vec) else .constTrue) ∧
    ((loadEmitGroups numElems vec valueElemNbits hasMask hasOther otherSplat
        splatVal).getD g default).vecStart = g * vec ∧
    ((loadEmitGroups numElems vec valueElemNbits hasMask hasOther otherSplat
        splatVal).getD g default).pred
        = (if hasMask then PredOperand.maskElem (g * vec) else .constTrue) := by
  unfold storeEmitGroups loadEmitGroups
  rw [getD_map_range _ _ hg, getD_map_range _ _ hg]
  exact ⟨rfl, rfl, rfl, rfl⟩

/-- Witness for C10 at `numElems = 6`, `vec = 2`, 32-bit elements, mask
present, group 2 (`vecStart = 4`). -/
theorem claim_C10_predicate_binding_witness :
    ((storeEmitGroups 6 2 32 true).getD 2 default).vecStart = 2 * 2 ∧
    ((storeEmitGroups 6 2 32 true).getD 2 default).pred
        = (if true then PredOperand.maskElem (2 * 2) else .constTrue) ∧
    ((loadEmitGroups 6 2 32 true false false 0).getD 2 default).vecStart = 2 * 2 ∧
    ((loadEmitGroups 6 2 32 true false false 0).getD 2 default).pred
        = (if true then PredOperand.maskElem (2 * 2) else .constTrue) :=
  claim_C10_predicate_binding 6 2 32 true false false 0 2 (by decide)

/-- Events relevant to the synchronization structure of the
layout-conversion lowering: a full-group barrier
(`mlir::gpu::BarrierOp`), or a vectorized shared-buffer store/load
emitted by `processReplicaBlocked` for replication round `repId`, CTA
replica `ctaId` and first vector element `elemId`.  The surrounding
pure index arithmetic emits no synchronizing and no
staging-buffer-touching operations and is abstracted away. -/
inductive CvtEvent
  | barrier
  | st (repId ctaId elemId : Nat)
  | ld (repId ctaId elemId : Nat)
deriving DecidableEq, Repr, Inhabited

/-- `ConvertLayoutOpConversion::processReplicaBlocked` (lines 1486-1567):
for each CTA replica of this round (`ctaId < accumNumCTAsEachRep =
product(numCTAsEachRep)`) and each vector start
(`elemId = 0, vec, 2*vec, ... < accumSizePerThread`), one vectorized
`LLVM::StoreOp` into the staging buffer (when `stNotRd`) or
`LLVM::LoadOp` from it is created.  No barrier is emitted here. -/
def processReplicaTrace (stNotRd : Bool) (repId : Nat) (numCTAsEachRep : List Nat)
    (accumSizePerThread vec : Nat) : List CvtEvent :=
  (List.range numCTAsEachRep.prod).flatMap (fun ctaId =>
    (List.range (ceilDiv accumSizePerThread vec)).map (fun i =>
      if stNotRd then .st repId ctaId (i * vec) else .ld repId ctaId (i * vec)))

/-- Body of one replication round of
`ConvertLayoutOpConversion::matchAndRewrite` (lines 1445-1465): a
barrier, the source-layout stores of this round, a second barrier, then
the destination-layout loads of this round. -/
def cvtRound (inNumCTAsEachRep outNumCTAsEachRep : List Nat)
    (accumInSizePerThread accumOutSizePerThread inVec outVec : Nat)
    (repId : Nat) : List CvtEvent :=
  CvtEvent.barrier ::
    (processReplicaTrace true repId inNumCTAsEachRep accumInSizePerThread inVec ++
      CvtEvent.barrier ::
        processReplicaTrace false repId outNumCTAsEachRep accumOutSizePerThread outVec)

/-- The full instruction trace of the replication loop
(`for (unsigned repId = 0; repId < accumNumReplicates; ++repId)`,
line 1445), rounds in increasing order of `repId`. -/
def cvtTrace (accumNumReplicates : Nat) (inNumCTAsEachRep outNumCTAsEachRep : List Nat)
    (accumInSizePerThread accumOutSizePerThread inVec outVec : Nat) : List CvtEvent :=
  (List.range accumNumReplicates).flatMap
    (cvtRound inNumCTAsEachRep outNumCTAsEachRep accumInSizePerThread
      accumOutSizePerThread inVec outVec)

/-- Layout encodings the lowering dispatches on (`BlockedEncodingAttr`,
`MmaEncodingAttr`, `SharedEncodingAttr`, `SliceEncodingAttr`). -/
inductive Encoding
  | blocked (attr : BlockedEncodingAttr)
  | mma
  | shared
  | slice (dim : Nat) (parent : Encoding)
deriving DecidableEq, Repr

/-- Dynamic layout-kind test `isa<BlockedEncodingAttr>`. -/
def Encoding.isBlocked : Encoding → Bool
  | .blocked _ => true
  | _ => false

/-- Outcome of `ConvertLayoutOpConversion::matchAndRewrite`: the fatal
`assert(0 && ...)` path (a debug abort; with assertions compiled out the
pattern still rewrites nothing and reports `failure()`), or the emitted
instruction stream that replaces the op. -/
inductive ConvertLayoutResult
  | fatal (msg : String)
  | lowered (events : List CvtEvent)
deriving DecidableEq, Repr

/-- `ConvertLayoutOpConversion::matchAndRewrite` (lines 1364-1472),
synchronization-relevant behaviour: when the source or destination
layout is not Blocked the fatal unimplemented path is taken before
anything is emitted; otherwise `accumNumReplicates` replication rounds
are emitted in increasing order.  The replication geometry
(`accumNumReplicates`, `inNumCTAsEachRep`, `outNumCTAsEachRep`, the
accumulated `sizePerThread` products and the `inVec`/`outVec` widths
from `getScratchConfigForCvtLayout`) is passed in as parameters. -/
def convertLayoutMatchAndRewrite (srcLayout dstLayout : Encoding)
    (accumNumReplicates : Nat) (inNumCTAsEachRep outNumCTAsEachRep : List Nat)
    (accumInSizePerThread accumOutSizePerThread inVec outVec : Nat) :
    ConvertLayoutResult :=
  if srcLayout.isBlocked = false ∨ dstLayout.isBlocked = false then
    .fatal "convert_layout except for blocked -> blocked is not implemented"
  else
    .lowered (cvtTrace accumNumReplicates inNumCTAsEachRep outNumCTAsEachRep
      accumInSizePerThread accumOutSizePerThread inVec outVec)

theorem processReplicaTrace_count_barrier (stNotRd : Bool) (repId : Nat)
    (numCTAsEachRep : List Nat) (accumSizePerThread vec : Nat) :
    (processReplicaTrace stNotRd repId numCTAsEachRep accumSizePerThread vec).count
      .barrier = 0 := by
  rw [List.count_eq_zero]
  intro h
  simp only [processReplicaTrace, List.mem_flatMap, List.mem_map, List.mem_range] at h
  obtain ⟨c, _, i, _, he⟩ := h
  cases stNotRd <;> simp at he

theorem cvtRound_count_barrier (inRep outRep : List Nat) (aIn aOut iV oV repId : Nat) :
    (cvtRound inRep outRep aIn aOut iV oV repId).count .barrier = 2 := by
  simp [cvtRound, List.count_cons, List.count_append, processReplicaTrace_count_barrier]

theorem cvtTrace_count_barrier (R : Nat) (inRep outRep : List Nat) (aIn aOut iV oV : Nat) :
    (cvtTrace R inRep outRep aIn aOut iV oV).count .barrier = 2 * R := by
  induction R with
  | zero => rfl
  | succ n ih =>
    unfold cvtTrace at ih ⊢
    rw [List.range_succ, List.flatMap_append, List.count_append, ih]
    simp [cvtRound_count_barrier]
    omega

/-- C4: a Blocked-to-Blocked conversion lowers to the round trace; the
trace holds exactly two barriers per replication round; and for every
round `r` the trace splits as: the rounds before `r` (in increasing
order), one barrier, the round's shared-buffer stores, a second barrier,
the round's shared-buffer loads, then the later rounds — so one barrier
falls strictly before all of the round's writes and one strictly between
its writes and its reads, with only store events of round `r` between
its two barriers and only load events of round `r` before the next
round's barrier. -/
theorem claim_C4_round_barrier_structure (b1 b2 : BlockedEncodingAttr)
    (R : Nat) (inRep outRep : List Nat) (aIn aOut iV oV : Nat) (r : Nat) (hr : r < R) :
    convertLayoutMatchAndRewrite (.blocked b1) (.blocked b2) R inRep outRep aIn aOut iV oV
        = .lowered (cvtTrace R inRep outRep aIn aOut iV oV) ∧
    (cvtTrace R inRep outRep aIn aOut iV oV).count .barrier = 2 * R ∧
    cvtTrace R inRep outRep aIn aOut iV oV =
      (List.range r).flatMap (cvtRound inRep outRep aIn aOut iV oV) ++
        CvtEvent.barrier ::
          (processReplicaTrace true r inRep aIn iV ++
            CvtEvent.barrier ::
              (processReplicaTrace false r outRep aOut oV ++
                ((List.range R).drop (r + 1)).flatMap
                  (cvtRound inRep outRep aIn aOut iV oV))) ∧
    (∀ e ∈ processReplicaTrace true r inRep aIn iV, ∃ c i, e = CvtEvent.st r c i) ∧
    (∀ e ∈ processReplicaTrace false r outRep aOut oV, ∃ c i, e = CvtEvent.ld r c i) := by
  refine ⟨?_, cvtTrace_count_barrier R inRep outRep aIn aOut iV oV, ?_, ?_, ?_⟩
  · unfold convertLayoutMatchAndRewrite
    rw [if_neg]
    simp [Encoding.isBlocked]
  · have hsplit : List.range R = List.range r ++ [r] ++ (List.range R).drop (r + 1) := by
      have h1 : List.range R =
          (List.range R).take (r + 1) ++ (List.range R).drop (r + 1) :=
        (List.take_append_drop (r + 1) (List.range R)).symm
      have h2 : (List.range R).take (r + 1) = List.range (r + 1) := by
        rw [List.take_range, Nat.min_eq_left (by omega)]
      rw [h2, List.range_succ] at h1
      exact h1
    conv_lhs => rw [cvtTrace, hsplit]
    rw [List.flatMap_append, List.flatMap_append]
    simp only [List.flatMap_cons, List.flatMap_nil, List.append_nil]
    rw [cvtRound]
    simp [List.append_assoc]
  · intro e he
    simp only [processReplicaTrace, List.mem_flatMap, List.mem_map, List.mem_range] at he
    obtain ⟨c, _, i, _, he⟩ := he
    exact ⟨c, i * iV, by simp at he; exact he.symm⟩
  · intro e he
    simp only [processReplicaTrace, List.mem_flatMap, List.mem_map, List.mem_range] at he
    obtain ⟨c, _, i, _, he⟩ := he
    exact ⟨c, i * oV, by simp at he; exact he.symm⟩

/-- Witness for C4 at two rounds (`R = 2`), round `r = 1`, one CTA
replica per round on each side, four elements per round stored/loaded in
vectors of two. -/
theorem claim_C4_round_barrier_structure_witness :
    convertLayoutMatchAndRewrite (.blocked ⟨[1], [32], [1], [0]⟩)
        (.blocked ⟨[2], [16], [1], [0]⟩) 2 [1] [1] 4 4 2 2
        = .lowered (cvtTrace 2 [1] [1] 4 4 2 2) ∧
    (cvtTrace 2 [1] [1] 4 4 2 2).count .barrier = 2 * 2 ∧
    cvtTrace 2 [1] [1] 4 4 2 2 =
      (List.range 1).flatMap (cvtRound [1] [1] 4 4 2 2) ++
        CvtEvent.barrier ::
          (processReplicaTrace true 1 [1] 4 2 ++
            CvtEvent.barrier ::
              (processReplicaTrace false 1 [1] 4 2 ++
                ((List.range 2).drop 2).flatMap (cvtRound [1] [1] 4 4 2 2))) ∧
    (∀ e ∈ processReplicaTrace true 1 [1] 4 2, ∃ c i, e = CvtEvent.st 1 c i) ∧
    (∀ e ∈ processReplicaTrace false 1 [1] 4 2, ∃ c i, e = CvtEvent.ld 1 c i) :=
  claim_C4_round_barrier_structure ⟨[1], [32], [1], [0]⟩ ⟨[2], [16], [1], [0]⟩
    2 [1] [1] 4 4 2 2 1 (by decide)

/-- C9: a layout conversion in which either side is not a Blocked layout
takes the fatal unimplemented path and never produces a lowered
instruction stream. -/
theorem claim_C9_non_blocked_fatal (srcLayout dstLayout : Encoding)
    (R : Nat) (inRep outRep : List Nat) (aIn aOut iV oV : Nat)
    (h : srcLayout.isBlocked = false ∨ dstLayout.isBlocked = false) :
    convertLayoutMatchAndRewrite srcLayout dstLayout R inRep outRep aIn aOut iV oV
        = .fatal "convert_layout except for blocked -> blocked is not implemented" ∧
    ∀ events, convertLayoutMatchAndRewrite srcLayout dstLayout R inRep outRep
        aIn aOut iV oV ≠ .lowered events := by
  have hfatal : convertLayoutMatchAndRewrite srcLayout dstLayout R inRep outRep
      aIn aOut iV oV
      = .fatal "convert_layout except for blocked -> blocked is not implemented" := by
    unfold convertLayoutMatchAndRewrite
    rw [if_pos h]
  refine ⟨hfatal, ?_⟩
  intro events hcontra
  rw [hfatal] at hcontra
  exact ConvertLayoutResult.noConfusion hcontra

/-- Witness for C9 at an MMA source layout and Blocked destination. -/
theorem claim_C9_non_blocked_fatal_witness :
    convertLayoutMatchAndRewrite .mma (.blocked ⟨[1], [32], [1], [0]⟩) 1 [1] [1] 1 1 1 1
        = .fatal "convert_layout except for blocked -> blocked is not implemented" ∧
    ∀ events, convertLayoutMatchAndRewrite .mma (.blocked ⟨[1], [32], [1], [0]⟩)
        1 [1] [1] 1 1 1 1 ≠ .lowered events :=
  claim_C9_non_blocked_fatal .mma (.blocked ⟨[1], [32], [1], [0]⟩) 1 [1] [1] 1 1 1 1
    (Or.inl rfl)

/-- `BroadcastOpConversion::matchAndRewrite` (lines 891-971), index
computation: both shapes are expressed in the logical
`(numCtas[d], sizePerThread[d])` space of length `2*rank` (CTA-tile
counts first, intra-thread sizes second); for each broadcast dimension
(`srcShape[d] != resultShape[d]`, the source extent being 1) the
replication factors between the destination and source logical shapes
are collected into `broadcastSizes`; each source record element is then
fanned out to every replication coordinate by offsetting its logical
coordinates and re-linearizing into the destination logical space
(`resultVals[resultLinearIndex] = srcVals[i]`, modelled with `List.set`
on a list prefilled with `dflt`).  The source indexes the scale factor
as `srcLogicalShape[bcastDim.index() + broadcastDims.size()]`, which the
embedding reproduces verbatim.  The source asserts
`srcLayout == resultLayout`; the embedding keeps the two parameters and
mirrors which one each line reads. -/
def broadcastResultVals {α : Type} (srcLayout resultLayout : BlockedEncodingAttr)
    (srcShape resultShape : List Nat) (srcVals : List α) (dflt : α) : List α :=
  let rank := srcShape.length
  let numCtasF := fun d =>
    ceilDiv (resultShape.getD d 0)
      (resultLayout.sizePerThread.getD d 0 * resultLayout.threadsPerWarp.getD d 0 *
        resultLayout.warpsPerCTA.getD d 0)
  let broadcastDims :=
    (List.range rank).filter (fun d => srcShape.getD d 0 ≠ resultShape.getD d 0)
  let srcLogicalShape :=
    (List.range rank).map (fun d =>
      if srcShape.getD d 0 ≠ resultShape.getD d 0 then 1 else numCtasF d) ++
    (List.range rank).map (fun d =>
      if srcShape.getD d 0 ≠ resultShape.getD d 0 then
        max 1 (srcLayout.sizePerThread.getD d 0)
      else resultLayout.sizePerThread.getD d 0)
  let resultLogicalShape :=
    (List.range rank).map (fun d => numCtasF d) ++
    (List.range rank).map (fun d => resultLayout.sizePerThread.getD d 0)
  let nbd := broadcastDims.length
  let broadcastSizes :=
    broadcastDims.map (fun d =>
      resultLogicalShape.getD d 0 / srcLogicalShape.getD d 0) ++
    broadcastDims.map (fun d =>
      resultLogicalShape.getD (d + rank) 0 / srcLogicalShape.getD (d + rank) 0)
  let duplicates := broadcastSizes.prod
  let srcElems := srcLayout.getElemsPerThread srcShape
  let resultElems := resultLayout.getElemsPerThread resultShape
  (List.range srcElems).foldl (fun acc i =>
    let srcMultiDim := getMultiDimIndex i srcLogicalShape
    (List.range duplicates).foldl (fun acc2 j =>
      let bcastMultiDim := getMultiDimIndex j broadcastSizes
      let resultMultiDim := broadcastDims.enum.foldl (fun md p =>
        let idx := p.1
        let d := p.2
        let md1 := md.set d (md.getD d 0 + bcastMultiDim.getD idx 0)
        md1.set (d + rank)
          (md1.getD (d + rank) 0 +
            bcastMultiDim.getD (idx + nbd) 0 * srcLogicalShape.getD (idx + nbd) 0))
        srcMultiDim
      let resultLinearIndex := getLinearIndex resultMultiDim resultLogicalShape
      acc2.set resultLinearIndex (srcVals.getD i dflt)) acc)
    (List.replicate resultElems dflt)

/-- C6: the coordinate-level broadcast property fails on the code.  For
the identical source/destination Blocked layout `sizePerThread=[4,1]`,
`threadsPerWarp=[16,2]`, `warpsPerCTA=[2,1]`, `order=[1,0]` and the
claim's shapes `[256,1] -> [256,4]`, the broadcast record itself fans
the source out correctly in logical space, but lane 0's record slots 0
and 8 are both enumerated at destination coordinate `(0,0)` (the same
nano-tile delinearization slip as in the enumeration: tile ids are
decomposed over `threadsPerDim = [64,4]` instead of the tile counts
`[2,2]`) while holding the distinct source elements 0 and 4 (source
record labelled `0..7`), so the slot corresponding to a destination
coordinate `(x,y)` does not hold the source `(x,0)` scalar at every
coordinate. -/
theorem claim_C6_broadcast_coordinate_mismatch :
    (emitIndicesForBlockedLayout ⟨[4, 1], [16, 2], [2, 1], [1, 0]⟩ [256, 4] 0).getD 0 [] =
      (emitIndicesForBlockedLayout ⟨[4, 1], [16, 2], [2, 1], [1, 0]⟩ [256, 4] 0).getD 8 [] ∧
    (broadcastResultVals ⟨[4, 1], [16, 2], [2, 1], [1, 0]⟩ ⟨[4, 1], [16, 2], [2, 1], [1, 0]⟩
        [256, 1] [256, 4] (List.range 8) 99).getD 0 99 ≠
      (broadcastResultVals ⟨[4, 1], [16, 2], [2, 1], [1, 0]⟩ ⟨[4, 1], [16, 2], [2, 1], [1, 0]⟩
        [256, 1] [256, 4] (List.range 8) 99).getD 8 99 := by
  decide

end TritonToLLVM
